import Mathlib

/-!
Verification of the miniond node agent against its design specification.

The Rust sources are shallowly embedded: strings are lists of characters,
byte streams are lists of naturals, hash maps are association lists with
replacing insertion, and external effects (tool invocations, file writes)
are reified as explicit action traces.  Positions are counted in
characters; the sources only ever produce ASCII in the places measured.
-/

deriving instance DecidableEq for Except

namespace Miniond

/-- Strings are modelled as lists of characters. -/
abbrev Str := List Char

/-- Association-list lookup (embeds `HashMap::get`). -/
def alookup {β : Type} : List (Str × β) → Str → Option β
  | [], _ => none
  | (k, v) :: rest, key => if k = key then some v else alookup rest key

/-- Association-list insertion that replaces an existing binding
(embeds `HashMap::insert`'s effect on the map). -/
def ainsert {β : Type} : List (Str × β) → Str → β → List (Str × β)
  | [], key, v => [(key, v)]
  | (k, v0) :: rest, key, v =>
    if k = key then (key, v) :: rest else (k, v0) :: ainsert rest key v

/-- In-place update of a binding (embeds `HashMap::get_mut` followed by a
mutation of the value). -/
def aupdate {β : Type} : List (Str × β) → Str → (β → β) → List (Str × β)
  | [], _, _ => []
  | (k, v) :: rest, key, f =>
    if k = key then (k, f v) :: rest else (k, v) :: aupdate rest key f

/-- Boolean list-prefix test. -/
def isPrefOf : Str → Str → Bool
  | [], _ => true
  | _ :: _, [] => false
  | a :: as_, b :: bs => a = b && isPrefOf as_ bs

/-- The subset of `error::Error` variants reached by the embedded code.
Context strings that only feed log output (such as the offending line
carried by several variants) are elided. -/
inductive Err where
  | tmcdBadLine (position : Nat)
  | tmcdMissingKey (key : Str)
  | tmcdBadValue (value : Str)
  | tmcdDuplicateUser (login : Str)
  | tmcdDuplicateGroup (name : Str)
  | tmcdMissingDirective
  | tmcdUnknownDirective (directive : Str)
  | tmcdNoSuchUser (login : Str)
  | tmcdGeniBlankResponse
  | tmcdGeniError
  | tmcdInvalidUtf8
  | geniParseError
  | geniNoSuchNode
  | uidChangeUnsupported
  | gidChangeUnsupported
  | duplicateUid (login : Str) (uid : Nat) (existingLogin : Str)
  | userCreation
  | userUpdate
  | groupCreation
  | emulabBossSrvNotAvailable
  | tmcdFailedToDiscoverBossNode
  | dnsLookupError
  | ioError
  deriving DecidableEq, Repr

/-! ## Response parser (`tmcc/parser.rs`)

`Response::parse` repeatedly matches the anchored regular expression

  `^(?P<key>[A-Z]+)(=("(?P<quoted_value>[^"]*)"|(?P<value>[^ ]+)))?($| (?P<rest>.+)$)`

against the unparsed remainder of the line.  The embedding implements the
regex engine's leftmost-first semantics for this pattern directly:
the key is the maximal leading run of `A`-`Z` (no continuation after
giving back an upper-case character can succeed, so the run is effectively
possessive); the optional value group is tried before its absence, with
the quoted alternative preferred over the unquoted one; the tail matches
either the end of the haystack or a space followed by a non-empty
newline-free remainder. -/

/-- `[A-Z]` character class. -/
def isUpperAZ (c : Char) : Bool := 'A' ≤ c && c ≤ 'Z'

/-- Match `($| (?P<rest>.+)$)` against the remainder: either the end of
the haystack, or a space followed by at least one character, none of
which may be a newline (`.` does not match `\n`). -/
def matchTail (w : Str) : Option (Option Str) :=
  match w with
  | [] => some none
  | ' ' :: r => if r ≠ [] && !(r.contains '\n') then some (some r) else none
  | _ => none

/-- Match `"(?P<quoted_value>[^"]*)"`: an opening quote, the maximal run
of non-quote characters, and a closing quote.  Returns the captured value
and the remainder after the closing quote. -/
def matchQuoted (u : Str) : Option (Str × Str) :=
  match u with
  | '"' :: v =>
    match v.dropWhile (fun c => c ≠ '"') with
    | '"' :: after => some (v.takeWhile (fun c => c ≠ '"'), after)
    | _ => none
  | _ => none

/-- Match `(?P<value>[^ ]+)`: the maximal non-empty run of non-space
characters.  Only the maximal run can be followed by a successful tail
match, so no shorter candidate needs to be considered. -/
def matchUnquoted (u : Str) : Option (Str × Str) :=
  match u.takeWhile (fun c => c ≠ ' ') with
  | [] => none
  | c :: cs => some (c :: cs, u.dropWhile (fun c => c ≠ ' '))

/-- The unquoted alternative of the value group combined with the tail. -/
def matchEqUnquoted (u : Str) : Option ((Str × Bool) × Option Str) :=
  match matchUnquoted u with
  | some (v, after) =>
    match matchTail after with
    | some rest? => some ((v, false), rest?)
    | none => none
  | none => none

/-- Match `=("…"|[^ ]+)` followed by the tail, with the quoted
alternative preferred; if its tail fails the engine backtracks into the
unquoted alternative.  The boolean records which capture group matched
(`true` for `quoted_value`). -/
def matchEq (t : Str) : Option ((Str × Bool) × Option Str) :=
  match t with
  | '=' :: u =>
    match matchQuoted u with
    | some (qv, after) =>
      match matchTail after with
      | some rest? => some ((qv, true), rest?)
      | none => matchEqUnquoted u
    | none => matchEqUnquoted u
  | _ => none

/-- One match of the token regex against the unparsed remainder:
returns the key, the captured value (if any) with its quotedness, and
the remainder captured by `rest` (if the line continues). -/
def matchToken (s : Str) : Option (Str × Option (Str × Bool) × Option Str) :=
  match s.takeWhile isUpperAZ with
  | [] => none
  | c :: cs =>
    match matchEq (s.dropWhile isUpperAZ) with
    | some (v, rest?) => some (c :: cs, some v, rest?)
    | none =>
      match matchTail (s.dropWhile isUpperAZ) with
      | some rest? => some (c :: cs, none, rest?)
      | none => none

/-- A parsed TMCD response line (`parser.rs`, `struct Response`).  The
`line` field of the Rust struct only feeds error context and is elided. -/
structure Response where
  responseType : Option Str
  kv : List (Str × Str)
  deriving DecidableEq, Repr

/-- The parse loop of `Response::parse`.  The fuel argument bounds the
number of iterations; `parse` supplies `line.length + 1`, which is
sufficient because the remainder strictly shrinks each iteration. -/
def parseAux (line : Str) : Nat → Str → Bool → Option Str → List (Str × Str) →
    Except Err Response
  | 0, rest, _, _, _ => .error (.tmcdBadLine (line.length - rest.length))
  | fuel + 1, rest, first, rt, kv =>
    match matchToken rest with
    | none => .error (.tmcdBadLine (line.length - rest.length))
    | some (key, val?, rest?) =>
      match val? with
      | some (v, _) =>
        match rest? with
        | some r => parseAux line fuel r false rt (ainsert kv key v)
        | none => .ok ⟨rt, ainsert kv key v⟩
      | none =>
        if first then
          match rest? with
          | some r => parseAux line fuel r false (some key) kv
          | none => .ok ⟨some key, kv⟩
        else .error (.tmcdBadLine (line.length - rest.length))

/-- `Response::parse`. -/
def Response.parse (line : Str) : Except Err Response :=
  parseAux line (line.length + 1) line true none []

/-- `Response::get`. -/
def Response.get (r : Response) (key : Str) : Except Err Str :=
  match alookup r.kv key with
  | some v => .ok v
  | none => .error (.tmcdMissingKey key)

/-- `Response::get_parsed::<String>` (the `String` decoder never fails). -/
def Response.getParsedString (r : Response) (key : Str) : Except Err Str :=
  r.get key

/-- `u16::from_str`: an optional leading `+`, then one or more ASCII
digits, rejecting values of 2^16 or more. -/
def parseU16 (s : Str) : Option Nat :=
  let digits := match s with
    | '+' :: ds => ds
    | ds => ds
  if digits = [] || !(digits.all Char.isDigit) then none
  else
    let n := digits.foldl (fun acc c => acc * 10 + (c.toNat - 48)) 0
    if n < 65536 then some n else none

/-- `Response::get_parsed::<u16>`. -/
def Response.getParsedU16 (r : Response) (key : Str) : Except Err Nat :=
  match alookup r.kv key with
  | some v =>
    match parseU16 v with
    | some n => .ok n
    | none => .error (.tmcdBadValue v)
  | none => .error (.tmcdMissingKey key)

/-! ## Account data model (`account.rs`) -/

/-- `account::User`. -/
structure User where
  login : Str
  uid : Nat
  gid : Nat
  root : Bool
  home : Str
  sshKeys : List Str
  shell : Str
  serial : Str
  deriving DecidableEq, Repr

/-- `User::new`: root defaults to false, home to `/users/<login>`,
shell to `bash`. -/
def User.new (login : Str) (uid gid : Nat) (serial : Str) : User :=
  { login := login
    uid := uid
    gid := gid
    root := false
    home := ("/users/").data ++ login
    sshKeys := []
    shell := ("bash").data
    serial := serial }

/-- `User::add_ssh_key`. -/
def User.addSshKey (u : User) (publicKey : Str) : User :=
  { u with sshKeys := u.sshKeys ++ [publicKey] }

/-- `account::Group`. -/
structure Group where
  name : Str
  gid : Nat
  deriving DecidableEq, Repr

/-- `account::Accounts`: both maps are hash maps embedded as
association lists with replacing insertion. -/
structure Accounts where
  users : List (Str × User)
  groups : List (Str × Group)
  deriving DecidableEq, Repr

/-- `Accounts::new`. -/
def Accounts.new : Accounts := ⟨[], []⟩

/-! ## Accounts reply decoding (`Tmcc::accounts`, `tmcc/mod.rs`) -/

/-- `str::trim`, restricted to the ASCII whitespace the protocol can
produce. -/
def isWhite (c : Char) : Bool := c = ' ' || c = '\t' || c = '\n' || c = '\r'

/-- Trim leading and trailing whitespace (embeds `line.trim()`). -/
def trimStr (s : Str) : Str :=
  ((s.dropWhile isWhite).reverse.dropWhile isWhite).reverse

/-- `u8::make_ascii_lowercase` on one character. -/
def asciiLower (c : Char) : Char :=
  if 'A' ≤ c && c ≤ 'Z' then Char.ofNat (c.toNat + 32) else c

/-- Protocol vocabulary: response-type tokens and keys used by the
accounts and localization decoders. -/
def rtADDUSER : Str := ("ADDUSER").data

/-- `PUBKEY` response type. -/
def rtPUBKEY : Str := ("PUBKEY").data

/-- `ADDGROUP` response type. -/
def rtADDGROUP : Str := ("ADDGROUP").data

/-- `SFSKEY` response type. -/
def rtSFSKEY : Str := ("SFSKEY").data

/-- `LOGIN` key. -/
def kLOGIN : Str := ("LOGIN").data

/-- `UID` key. -/
def kUID : Str := ("UID").data

/-- `GID` key. -/
def kGID : Str := ("GID").data

/-- `SERIAL` key. -/
def kSERIAL : Str := ("SERIAL").data

/-- `ROOT` key. -/
def kROOT : Str := ("ROOT").data

/-- `HOMEDIR` key. -/
def kHOMEDIR : Str := ("HOMEDIR").data

/-- `SHELL` key. -/
def kSHELL : Str := ("SHELL").data

/-- `KEY` key. -/
def kKEY : Str := ("KEY").data

/-- `NAME` key. -/
def kNAME : Str := ("NAME").data

/-- `ROOTPUBKEY` key. -/
def kROOTPUBKEY : Str := ("ROOTPUBKEY").data

/-- The `root` login. -/
def loginRoot : Str := ("root").data

/-- One iteration of the `Tmcc::accounts` read loop: parse the line and
dispatch on its response type, extending the accounts record or
failing. -/
def accountsStep (acc : Accounts) (line : Str) : Except Err Accounts := do
  let parsed ← Response.parse (trimStr line)
  match parsed.responseType with
  | some rt =>
    if rt = rtADDUSER then do
      let login ← parsed.getParsedString kLOGIN
      let uid ← parsed.getParsedU16 kUID
      let gid ← parsed.getParsedU16 kGID
      let serial ← parsed.getParsedString kSERIAL
      let rootVal ← parsed.get kROOT
      let home ← parsed.getParsedString kHOMEDIR
      let shell ← parsed.getParsedString kSHELL
      let user := { User.new login uid gid serial with
        root := rootVal = ("1").data
        home := home
        shell := shell }
      if (alookup acc.users login).isSome then
        .error (.tmcdDuplicateUser login)
      else
        .ok { acc with users := ainsert acc.users login user }
    else if rt = rtPUBKEY then do
      let login ← parsed.getParsedString kLOGIN
      let key ← parsed.getParsedString kKEY
      if (alookup acc.users login).isSome then
        .ok { acc with users := aupdate acc.users login (fun u => u.addSshKey key) }
      else
        .error (.tmcdNoSuchUser login)
    else if rt = rtADDGROUP then do
      let name0 ← parsed.getParsedString kNAME
      let name := name0.map asciiLower
      let gid ← parsed.getParsedU16 kGID
      let group : Group := ⟨name, gid⟩
      if (alookup acc.groups name).isSome then
        .error (.tmcdDuplicateGroup name)
      else
        .ok { acc with groups := ainsert acc.groups name group }
    else if rt = rtSFSKEY then
      .ok acc
    else
      .error (.tmcdUnknownDirective rt)
  | none => .error (.tmcdMissingDirective)

/-- The `Tmcc::accounts` read loop over the reply lines. -/
def accountsFold : List Str → Accounts → Except Err Accounts
  | [], acc => .ok acc
  | l :: rest, acc =>
    match accountsStep acc l with
    | .ok acc => accountsFold rest acc
    | .error e => .error e

/-- `Tmcc::accounts`: decode the reply lines, then merge in the
synthesized root user (a plain insert, replacing any record the
controller supplied for login `root`). -/
def tmccAccounts (lines : List Str) (rootUser : User) : Except Err Accounts := do
  let acc ← accountsFold lines Accounts.new
  .ok { acc with users := ainsert acc.users loginRoot rootUser }

/-- The tolerant `Tmcc::root_account` read loop: collect `ROOTPUBKEY`
values until the first line that fails to parse or lacks the key. -/
def rootKeys : List Str → List Str
  | [] => []
  | l :: rest =>
    match Response.parse (trimStr l) with
    | .ok r =>
      match alookup r.kv kROOTPUBKEY with
      | some k => k :: rootKeys rest
      | none => []
    | .error _ => []

/-- `Tmcc::root_account`: synthesize the root user with UID 0, GID 0,
an empty serial, the system root's home directory, and the collected
public keys.  The root flag is never set. -/
def rootAccount (localizationLines : List Str) (rootHome : Str) : User :=
  let root := User.new loginRoot 0 0 []
  { root with home := rootHome, sshKeys := rootKeys localizationLines }

/-! ## `User::apply` and `Group::apply` (`account.rs`)

External state and effects are made explicit: the system's user
database, the admin group, the allowed-shells map, and the exit status
of the external tools come in through `SystemState`; the tool
invocations and file operations performed are returned as a trace. -/

/-- `FALLBACK_SHELL`. -/
def fallbackShell : Str := ("/bin/sh").data

/-- `account::SystemConfiguration`. -/
structure SystemConfiguration where
  shells : List (Str × Str)
  adminGroup : Str
  deriving DecidableEq, Repr

/-- A user as reported by the system database (`users` crate). -/
structure SysUser where
  uid : Nat
  groups : List Str
  deriving DecidableEq, Repr

/-- The slice of system state `User::apply` consults, plus the exit
statuses of the external tools it may spawn. -/
structure SystemState where
  usersByName : List (Str × SysUser)
  usermodOk : Bool
  useraddOk : Bool
  deriving DecidableEq, Repr

/-- `users::get_user_by_uid`: the login of the first user holding the
given UID. -/
def SystemState.getUserByUid (st : SystemState) (uid : Nat) : Option Str :=
  (st.usersByName.find? (fun p => p.2.uid = uid)).map (fun p => p.1)

/-- An external effect performed by the account reconciler. -/
inductive Action where
  | usermod (shell : Str) (groups : Str) (login : Str)
  | useradd (home : Str) (uid gid : Nat) (shell : Str)
      (adminGroup : Option Str) (login : Str)
  | createDirAll (dir : Str)
  | writeFile (path : Str) (content : Str)
  | chown (path : Str) (uid gid : Nat)
  deriving DecidableEq, Repr

/-- `join(",")` over group names. -/
def joinComma : List Str → Str
  | [] => []
  | [g] => g
  | g :: rest => g ++ ',' :: joinComma rest

/-- Shell resolution at the top of `User::apply`: the preferred shell's
basename looked up in the allowed-shells map, falling back to
`/bin/sh`. -/
def resolveShell (sys : SystemConfiguration) (shell : Str) : Str :=
  match alookup sys.shells shell with
  | some path => path
  | none => fallbackShell

/-- The fixed two-line banner written at the top of
`authorized_keys`. -/
def authorizedKeysBanner : Str :=
  ("# This file was automatically generated by miniond\n").data ++
  ("# Please add your keys using the testbed web interface.\n\n").data

/-- `User::apply_authorized_keys` as an effect trace: create
`<home>/.ssh`, truncate and rewrite `authorized_keys` with the banner
followed by one key per line, then chown the file and the
directory. -/
def applyAuthorizedKeysActions (u : User) : List Action :=
  let sshDir := u.home ++ ("/.ssh").data
  let path := u.home ++ ("/.ssh/authorized_keys").data
  [ .createDirAll sshDir
  , .writeFile path (authorizedKeysBanner ++
      (u.sshKeys.map (fun k => k ++ ['\n'])).flatten)
  , .chown path u.uid u.gid
  , .chown sshDir u.uid u.gid ]

/-- `User::apply`: the result together with the external effects
performed before returning. -/
def User.apply (u : User) (sys : SystemConfiguration) (st : SystemState) :
    Except Err Unit × List Action :=
  let shell := resolveShell sys u.shell
  match alookup st.usersByName u.login with
  | some user =>
    let newGroups := joinComma
      (user.groups.filter (fun gn => u.root || gn ≠ sys.adminGroup))
    if user.uid ≠ u.uid then
      (.error .uidChangeUnsupported, [])
    else
      let act := Action.usermod shell newGroups u.login
      if st.usermodOk then
        (.ok (), act :: applyAuthorizedKeysActions u)
      else
        (.error .userUpdate, [act])
  | none =>
    match st.getUserByUid u.uid with
    | some existingLogin =>
      (.error (.duplicateUid u.login u.uid existingLogin), [])
    | none =>
      let act := Action.useradd u.home u.uid u.gid shell
        (if u.root then some sys.adminGroup else none) u.login
      if st.useraddOk then
        (.ok (), act :: applyAuthorizedKeysActions u)
      else
        (.error .userCreation, [act])

/-! ## Request framing (`tmcc/mod.rs`, `struct Command`) -/

/-- `TMCD_VERSION`. -/
def tmcdVersion : Nat := 44

/-- Decimal digit characters of a natural number (embeds the `Display`
formatting of the version constant).  Structural on a fuel argument so
that concrete values reduce definitionally. -/
def natDigitsAux : Nat → Nat → List Char
  | 0, _ => []
  | fuel + 1, n =>
    if n < 10 then [Char.ofNat (48 + n)]
    else natDigitsAux fuel (n / 10) ++ [Char.ofNat (48 + n % 10)]

/-- Decimal rendering of a natural number. -/
def natToStr (n : Nat) : Str := natDigitsAux (n + 1) n

/-- `tmcc::Command`. -/
structure Command where
  bytes : Str
  deriving DecidableEq, Repr

/-- `Command::new`: `format!("VERSION={} ", TMCD_VERSION)` followed by
the command name. -/
def Command.new (command : Str) : Command :=
  ⟨("VERSION=").data ++ natToStr tmcdVersion ++ ' ' :: command⟩

/-- `Command::arg`: push a space and the argument. -/
def Command.arg (c : Command) (a : Str) : Command :=
  ⟨c.bytes ++ ' ' :: a⟩

/-- `Command::finalize`: push the trailing space required by the
controller. -/
def Command.finalize (c : Command) : Str :=
  c.bytes ++ [' ']

/-- `tmcc::State`. -/
inductive TState where
  | up
  | setup
  | shutdown
  deriving DecidableEq, Repr

/-- `State::as_ref`. -/
def TState.asRef : TState → Str
  | .up => ("ISUP").data
  | .setup => ("MFSSETUP").data
  | .shutdown => ("SHUTDOWN").data

/-- The RPCs the client implements. -/
inductive Rpc where
  | accounts
  | localization
  | mounts
  | status
  | state (s : TState)
  | geniManifest
  deriving DecidableEq, Repr

/-- The exact bytes each RPC writes to its freshly opened socket.  The
text commands are framed through `Command`; `Tmcc::geni_manifest`
writes the bare command name directly (`socket.write_all`). -/
def requestFrame : Rpc → Str
  | .accounts => (Command.new (("accounts").data)).finalize
  | .localization => (Command.new (("localization").data)).finalize
  | .mounts => (Command.new (("mounts").data)).finalize
  | .status => (Command.new (("status").data)).finalize
  | .state s => ((Command.new (("state").data)).arg s.asRef).finalize
  | .geniManifest => ("geni_manifest").data

/-! ## GENI manifest reply framing (`Tmcc::geni_manifest`) -/

/-- `read_until(0, &mut buf)`: append bytes up to and including the
first zero byte (or to end of stream); returns the bytes read and the
rest of the stream. -/
def readUntil0 : List Nat → List Nat × List Nat
  | [] => ([], [])
  | b :: rest =>
    if b = 0 then ([0], rest)
    else
      let (chunk, r) := readUntil0 rest
      (b :: chunk, r)

/-- The framing logic of `Tmcc::geni_manifest`, up to the point where
the response bytes are handed to the UTF-8 decoder and XML parser. -/
def geniFrame (stream : List Nat) : Except Err (List Nat) :=
  let (buf, rest) := readUntil0 stream
  if buf.length > 1 then .ok buf
  else if buf.length = 1 then
    let (buf2, _) := readUntil0 rest
    if buf2.length = 1 then .error .tmcdGeniError
    else .ok buf2
  else .error .tmcdGeniBlankResponse

/-! ## Boss node discovery (`tmcc/discovery.rs`)

The outside world (environment variable, well-known files, DNS, the
resolver configuration) is supplied as an explicit environment; the
embedded `discover` reproduces the source's control flow over it. -/

/-- `tmcc::BossNode`. -/
inductive BossNode where
  | hostPort (host : Str) (port : Nat)
  deriving DecidableEq, Repr

/-- `TMCD_PORT`. -/
def tmcdPort : Nat := 7777

/-- `BossNode::host`. -/
def BossNode.host (host : Str) : BossNode := .hostPort host tmcdPort

/-- One SRV record as seen by `discover_from_srv_record`: whether its
target is the DNS root, plus its target name and port. -/
structure SrvRecord where
  targetIsRoot : Bool
  target : Str
  port : Nat
  deriving DecidableEq, Repr

/-- Outcome of the `_emulab_boss` SRV lookup. -/
inductive SrvOutcome where
  | ok (records : List SrvRecord)
  | err
  deriving DecidableEq, Repr

/-- A nameserver entry from the parsed resolver configuration. -/
inductive ScopedIp where
  | v4 (isLinkLocal isLoopback : Bool) (addr : Str)
  | v6 (addr : Str)
  deriving DecidableEq, Repr

/-- The outside world consulted during discovery: the `BOSSNODE`
variable, the contents of the five well-known files in their probe
order, the SRV lookup outcome, and the parsed resolver configuration
(`none` when the file cannot be read or parsed). -/
structure DiscoveryEnv where
  bossnodeVar : Option Str
  files : List (Option Str)
  srv : SrvOutcome
  resolvConf : Option (List ScopedIp)
  deriving DecidableEq, Repr

/-- Result of a discovery step; `panic` models the `.expect` on an
empty successful SRV answer. -/
inductive DOutcome (α : Type) where
  | ok (a : α)
  | error (e : Err)
  | panic
  deriving DecidableEq, Repr

/-- `discovery::discover_from_srv_record`. -/
def discoverFromSrvRecord (srv : SrvOutcome) : DOutcome (Str × Nat) :=
  match srv with
  | .ok records =>
    match records.head? with
    | none => .panic
    | some first =>
      if first.targetIsRoot then .error .emulabBossSrvNotAvailable
      else .ok (first.target, first.port)
  | .err => .error .dnsLookupError

/-- `discovery::discover_from_resolv_conf`. -/
def discoverFromResolvConf (env : DiscoveryEnv) : Option Str :=
  match env.resolvConf with
  | none => none
  | some nameservers =>
    match nameservers.head? with
    | none => none
    | some (.v4 isLinkLocal isLoopback addr) =>
      if isLinkLocal || isLoopback then none else some addr
    | some (.v6 addr) => some addr

/-- The file probe loop in `discover`: first readable file wins. -/
def firstFileHit : List (Option Str) → Option Str
  | [] => none
  | some content :: _ => some content
  | none :: rest => firstFileHit rest

/-- `discovery::discover`: environment variable, then the well-known
files, then the SRV record (any error there falls through), then the
resolver configuration. -/
def discover (env : DiscoveryEnv) : DOutcome BossNode :=
  match env.bossnodeVar with
  | some boss => .ok (BossNode.host boss)
  | none =>
    match firstFileHit env.files with
    | some content => .ok (BossNode.host (trimStr content))
    | none =>
      match discoverFromSrvRecord env.srv with
      | .ok (host, port) => .ok (.hostPort host port)
      | .panic => .panic
      | .error _ =>
        match discoverFromResolvConf env with
        | some boss => .ok (BossNode.host boss)
        | none => .error .tmcdFailedToDiscoverBossNode

/-! ## Controller worker (`applet/tmcc.rs`) -/

/-- `applet::ShutdownReason`. -/
inductive ShutdownReason where
  | signal
  | interactiveSignal
  deriving DecidableEq, Repr

/-- `applet::Message` (payloads irrelevant to the verified properties
are elided). -/
inductive Message where
  | shutdown (reason : ShutdownReason)
  | updateAccounts
  | updateAccountsOk
  | updateMounts
  | updateMountsOk
  | updateCanonical
  | reloadTestbed
  deriving DecidableEq, Repr

/-- `applet::tmcc::TmccConfig` (the fields the main loop reads). -/
structure TmccConfig where
  reportShutdown : Bool
  deriving DecidableEq, Repr

/-- How one turn of the worker's main loop ends: continue with the
given `account_initialized` flag (recording whether a `state(ISUP)`
notification was successfully sent this turn), return from `main`
normally, return an error (the supervisor respawns the worker), or
panic (the `.unwrap()` on the `state(SHUTDOWN)` result). -/
inductive LoopOutcome where
  | next (accountInitialized : Bool) (sentIsup : Bool)
  | exitOk
  | exitErr (e : Err)
  | panic (e : Err)
  deriving DecidableEq, Repr

/-- One turn of the `Tmcc::main` message loop.  `rpcResult` is the
outcome of the single `state` RPC this turn may attempt (`state
SHUTDOWN` in the shutdown arm, `state ISUP` in the accounts-ok arm);
turns that attempt no RPC ignore it. -/
def tmccStep (cfg : TmccConfig) (accountInitialized : Bool) (m : Message)
    (rpcResult : Except Err Unit) : LoopOutcome :=
  match m with
  | .shutdown reason =>
    if reason = .signal && cfg.reportShutdown then
      match rpcResult with
      | .ok _ => .exitOk
      | .error e => .panic e
    else .exitOk
  | .updateAccountsOk =>
    if !accountInitialized then
      match rpcResult with
      | .ok _ => .next true true
      | .error e => .exitErr e
    else .next accountInitialized false
  | _ => .next accountInitialized false

/-- The number of successful `state(ISUP)` sends over a whole process
lifetime: the worker consumes the delivered messages in order, each
paired with the outcome its `state` RPC would have; an error return
makes the supervisor respawn the worker (the atomic flag survives), a
normal return or a panic ends the lifetime. -/
def tmccIsupCount (cfg : TmccConfig) : Bool → List (Message × Except Err Unit) → Nat
  | _, [] => 0
  | flag, (m, rpc) :: rest =>
    match tmccStep cfg flag m rpc with
    | .next f sent => (if sent then 1 else 0) + tmccIsupCount cfg f rest
    | .exitErr _ => tmccIsupCount cfg flag rest
    | .exitOk => 0
    | .panic _ => 0

/-! ## Sample inputs used by the witnesses -/

/-- A sample user record. -/
def sampleUser : User :=
  { login := ("alice").data
    uid := 20001
    gid := 6418
    root := false
    home := ("/users/alice").data
    sshKeys := []
    shell := ("bash").data
    serial := ("1").data }

/-- A sample system configuration. -/
def sampleSys : SystemConfiguration :=
  ⟨[((("bash").data), ("/bin/bash").data)], ("sudo").data⟩

/-- A sample system state in which `alice` exists with a different
UID. -/
def sampleStateUidClash : SystemState :=
  ⟨[((("alice").data), ⟨20002, [(("sudo").data), ("proj").data]⟩)], true, true⟩

/-! ## Theorems -/

/-- Once the worker's remembered flag is set, no turn ever sends
`state(ISUP)` again. -/
theorem tmccIsupCount_flag_set (cfg : TmccConfig) :
    ∀ events : List (Message × Except Err Unit), tmccIsupCount cfg true events = 0 := by
  intro events
  induction events with
  | nil => rfl
  | cons e rest ih =>
    obtain ⟨m, rpc⟩ := e
    cases m with
    | shutdown reason =>
      cases reason <;> cases rpc <;>
        by_cases hrs : cfg.reportShutdown = true <;>
          simp [tmccIsupCount, tmccStep, hrs]
    | updateAccountsOk => simpa [tmccIsupCount, tmccStep] using ih
    | updateAccounts => simpa [tmccIsupCount, tmccStep] using ih
    | updateMounts => simpa [tmccIsupCount, tmccStep] using ih
    | updateMountsOk => simpa [tmccIsupCount, tmccStep] using ih
    | updateCanonical => simpa [tmccIsupCount, tmccStep] using ih
    | reloadTestbed => simpa [tmccIsupCount, tmccStep] using ih

/-- C1: if a system user with the record's login exists and its UID
differs from the record's UID, `User::apply` returns
`UidChangeUnsupported` and the trace of external effects is empty: no
`usermod` or `useradd` invocation and no `authorized_keys` write
happens before returning. -/
theorem c1_uid_change_no_mutation (u : User) (sys : SystemConfiguration)
    (st : SystemState) (user : SysUser)
    (hfound : alookup st.usersByName u.login = some user)
    (hneq : user.uid ≠ u.uid) :
    u.apply sys st = (.error .uidChangeUnsupported, []) := by
  unfold User.apply
  rw [hfound]
  simp [hneq]

/-- Witness for `c1_uid_change_no_mutation` at a concrete input. -/
theorem c1_uid_change_no_mutation_witness :
    alookup sampleStateUidClash.usersByName sampleUser.login =
      some ⟨20002, [(("sudo").data), ("proj").data]⟩ ∧
    (20002 : Nat) ≠ sampleUser.uid ∧
    sampleUser.apply sampleSys sampleStateUidClash =
      (.error .uidChangeUnsupported, []) :=
  ⟨by decide, by decide,
    c1_uid_change_no_mutation sampleUser sampleSys sampleStateUidClash
      ⟨20002, [(("sudo").data), ("proj").data]⟩ (by decide) (by decide)⟩

/-- C2 counterexample: the `geni_manifest` RPC writes the bare command
name, with neither the `VERSION=44 ` prefix nor a trailing space, so
the claim does not hold for every RPC. -/
theorem c2_geni_manifest_frame_counterexample :
    requestFrame .geniManifest = ("geni_manifest").data ∧
    isPrefOf (("VERSION=44 ").data) (requestFrame .geniManifest) = false ∧
    (requestFrame .geniManifest).getLast? ≠ some ' ' := by
  decide

/-- C2 as amended: every RPC other than `geni_manifest` writes a frame
that begins with `VERSION=44 ` followed by the command name and
arguments and ends with a trailing space; `geni_manifest` writes the
bare command name. -/
theorem c2_request_frame_amended (rpc : Rpc) (h : rpc ≠ .geniManifest) :
    isPrefOf (("VERSION=44 ").data) (requestFrame rpc) = true ∧
    (requestFrame rpc).getLast? = some ' ' := by
  cases rpc with
  | accounts => decide
  | localization => decide
  | mounts => decide
  | status => decide
  | state s => cases s <;> decide
  | geniManifest => exact absurd rfl h

/-- Witness for `c2_request_frame_amended` at a concrete input. -/
theorem c2_request_frame_amended_witness :
    Rpc.accounts ≠ .geniManifest ∧
    isPrefOf (("VERSION=44 ").data) (requestFrame .accounts) = true ∧
    (requestFrame .accounts).getLast? = some ' ' :=
  ⟨by decide,
    (c2_request_frame_amended .accounts (by decide)).1,
    (c2_request_frame_amended .accounts (by decide)).2⟩

/-- C5 counterexample: with shutdown reporting enabled, a failing
`state(SHUTDOWN)` send makes the worker panic (the result is
unwrapped); it does not terminate normally. -/
theorem c5_shutdown_report_counterexample :
    tmccStep ⟨true⟩ false (.shutdown .signal) (.error .ioError) =
      .panic .ioError ∧
    tmccStep ⟨true⟩ false (.shutdown .signal) (.error .ioError) ≠ .exitOk := by
  decide

/-- C5 as amended: handling `Shutdown(signal)` with shutdown reporting
enabled sends `state(SHUTDOWN)` and unwraps the result: on success the
worker terminates normally, but on failure it panics; the error is
neither merely logged nor surfaced as the worker's return value. -/
theorem c5_shutdown_report_amended (cfg : TmccConfig) (flag : Bool) (e : Err)
    (h : cfg.reportShutdown = true) :
    tmccStep cfg flag (.shutdown .signal) (.error e) = .panic e ∧
    tmccStep cfg flag (.shutdown .signal) (.ok ()) = .exitOk := by
  unfold tmccStep
  simp [h]

/-- Witness for `c5_shutdown_report_amended` at a concrete input. -/
theorem c5_shutdown_report_amended_witness :
    (⟨true⟩ : TmccConfig).reportShutdown = true ∧
    tmccStep ⟨true⟩ false (.shutdown .signal) (.error .ioError) =
      .panic .ioError ∧
    tmccStep ⟨true⟩ false (.shutdown .signal) (.ok ()) = .exitOk :=
  ⟨by decide,
    (c5_shutdown_report_amended ⟨true⟩ false .ioError (by decide)).1,
    (c5_shutdown_report_amended ⟨true⟩ false .ioError (by decide)).2⟩

/-- C6: over a whole process lifetime the controller worker performs at
most one successful `state(ISUP)` send, however many `UpdateAccountsOk`
messages are delivered; once the remembered flag is set, no further
send ever happens. -/
theorem c6_isup_at_most_once (cfg : TmccConfig)
    (events : List (Message × Except Err Unit)) :
    tmccIsupCount cfg false events ≤ 1 ∧
    tmccIsupCount cfg true events = 0 := by
  refine ⟨?_, tmccIsupCount_flag_set cfg events⟩
  induction events with
  | nil => simp [tmccIsupCount]
  | cons e rest ih =>
    obtain ⟨m, rpc⟩ := e
    cases m with
    | shutdown reason =>
      cases reason <;> cases rpc <;>
        by_cases hrs : cfg.reportShutdown = true <;>
          simp [tmccIsupCount, tmccStep, hrs]
    | updateAccountsOk =>
      cases rpc with
      | ok u => simp [tmccIsupCount, tmccStep, tmccIsupCount_flag_set cfg rest]
      | error e => simpa [tmccIsupCount, tmccStep] using ih
    | updateAccounts => simpa [tmccIsupCount, tmccStep] using ih
    | updateMounts => simpa [tmccIsupCount, tmccStep] using ih
    | updateMountsOk => simpa [tmccIsupCount, tmccStep] using ih
    | updateCanonical => simpa [tmccIsupCount, tmccStep] using ih
    | reloadTestbed => simpa [tmccIsupCount, tmccStep] using ih

/-- Reading to the delimiter consumes a zero-free block and the first
zero byte, leaving the remainder of the stream untouched. -/
theorem readUntil0_append (p r : List Nat) (hz : 0 ∉ p) :
    readUntil0 (p ++ 0 :: r) = (p ++ [0], r) := by
  induction p with
  | nil => simp [readUntil0]
  | cons b bs ih =>
    have hb : b ≠ 0 := fun h => hz (by simp [h])
    have hbs : 0 ∉ bs := fun h => hz (List.mem_cons_of_mem _ h)
    simp [readUntil0, hb, ih hbs]

/-- C3 counterexample: for the reply `[0, 65, 0]` (a single zero byte,
then the payload byte 65 terminated by zero) the client keeps the
terminating zero in the returned payload, and for the reply `[0]`
(a single zero byte only) it returns an empty payload rather than
`TmcdGeniBlankResponse`. -/
theorem c3_geni_framing_counterexample :
    geniFrame [0, 65, 0] = .ok [65, 0] ∧
    geniFrame [0, 65, 0] ≠ .ok [65] ∧
    geniFrame [0] = .ok [] ∧
    geniFrame [0] ≠ .error .tmcdGeniBlankResponse := by
  decide

/-- C3 as amended: a reply of a single zero byte followed by a
non-empty payload terminated by zero yields the payload together with
its terminating zero byte; a reply beginning with two zero bytes
yields `TmcdGeniError`; a reply of a single zero byte only yields an
empty payload (which subsequently fails XML parsing);
`TmcdGeniBlankResponse` arises only for an empty reply. -/
theorem c3_geni_framing_amended (p rest : List Nat) (hne : p ≠ [])
    (hz : 0 ∉ p) :
    geniFrame (0 :: (p ++ 0 :: rest)) = .ok (p ++ [0]) ∧
    geniFrame (0 :: 0 :: rest) = .error .tmcdGeniError ∧
    geniFrame [0] = .ok [] ∧
    geniFrame [] = .error .tmcdGeniBlankResponse := by
  refine ⟨?_, by simp [geniFrame, readUntil0], by decide, by decide⟩
  have h1 : readUntil0 (0 :: (p ++ 0 :: rest)) = ([0], p ++ 0 :: rest) := by
    simp [readUntil0]
  have h2 : readUntil0 (p ++ 0 :: rest) = (p ++ [0], rest) :=
    readUntil0_append p rest hz
  have hlen : (p ++ [0]).length ≠ 1 := by
    cases p with
    | nil => exact absurd rfl hne
    | cons a as_ => simp
  simp [geniFrame, h1, h2, hlen, hne]

/-- Witness for `c3_geni_framing_amended` at a concrete input. -/
theorem c3_geni_framing_amended_witness :
    ([65] : List Nat) ≠ [] ∧ (0 : Nat) ∉ ([65] : List Nat) ∧
    (geniFrame (0 :: ([65] ++ 0 :: [])) = .ok ([65] ++ [0]) ∧
     geniFrame (0 :: 0 :: []) = .error .tmcdGeniError ∧
     geniFrame [0] = .ok [] ∧
     geniFrame [] = .error .tmcdGeniBlankResponse) :=
  ⟨by decide, by decide, c3_geni_framing_amended [65] [] (by decide) (by decide)⟩

/-! ### Discovery samples -/

/-- The SRV record whose target is the DNS root. -/
def srvRootRecord : SrvRecord := ⟨true, (".").data, 0⟩

/-- A discovery environment where only the SRV step (root target) and
the resolver configuration can answer. -/
def srvRootEnv : DiscoveryEnv :=
  ⟨none, [none, none, none, none, none], .ok [srvRootRecord],
    some [ScopedIp.v4 false false (("10.0.0.1").data)]⟩

/-- The same environment without a usable resolver configuration. -/
def srvRootEnvNoResolv : DiscoveryEnv :=
  { srvRootEnv with resolvConf := none }

/-- C4 counterexample: when the SRV record's target is the DNS root,
`discover_from_srv_record` does yield `EmulabBossSrvNotAvailable`, but
`discover` swallows it — the resolver-configuration fallback is tried
(and wins here), and when it too fails the terminal error is
`TmcdFailedToDiscoverBossNode`, never `EmulabBossSrvNotAvailable`. -/
theorem c4_srv_root_counterexample :
    discoverFromSrvRecord srvRootEnv.srv = .error .emulabBossSrvNotAvailable ∧
    discover srvRootEnv = .ok (BossNode.host (("10.0.0.1").data)) ∧
    discover srvRootEnv ≠ .error .emulabBossSrvNotAvailable ∧
    discover srvRootEnvNoResolv = .error .tmcdFailedToDiscoverBossNode := by
  decide

/-- C4 as amended: when the environment variable and the well-known
files yield nothing and the SRV lookup returns a record whose target is
the DNS root, `discover_from_srv_record` yields
`EmulabBossSrvNotAvailable`, but `discover` treats the SRV step's error
like a miss: the resolver-configuration fallback IS tried next, and the
error never surfaces from `discover`. -/
theorem c4_srv_root_amended (env : DiscoveryEnv) (first : SrvRecord)
    (rest : List SrvRecord)
    (hvar : env.bossnodeVar = none)
    (hfiles : firstFileHit env.files = none)
    (hsrv : env.srv = .ok (first :: rest))
    (hroot : first.targetIsRoot = true) :
    discoverFromSrvRecord env.srv = .error .emulabBossSrvNotAvailable ∧
    discover env =
      (match discoverFromResolvConf env with
       | some boss => .ok (BossNode.host boss)
       | none => .error .tmcdFailedToDiscoverBossNode) := by
  have hs : discoverFromSrvRecord env.srv = .error .emulabBossSrvNotAvailable := by
    simp [discoverFromSrvRecord, hsrv, hroot]
  refine ⟨hs, ?_⟩
  unfold discover
  rw [hvar, hfiles, hs]

/-- Witness for `c4_srv_root_amended` at a concrete input. -/
theorem c4_srv_root_amended_witness :
    srvRootEnv.bossnodeVar = none ∧
    firstFileHit srvRootEnv.files = none ∧
    srvRootEnv.srv = .ok [srvRootRecord] ∧
    srvRootRecord.targetIsRoot = true ∧
    (discoverFromSrvRecord srvRootEnv.srv = .error .emulabBossSrvNotAvailable ∧
     discover srvRootEnv =
       (match discoverFromResolvConf srvRootEnv with
        | some boss => .ok (BossNode.host boss)
        | none => .error .tmcdFailedToDiscoverBossNode)) :=
  ⟨by decide, by decide, by decide, by decide,
    c4_srv_root_amended srvRootEnv srvRootRecord [] (by decide) (by decide)
      (by decide) (by decide)⟩

/-- Bind on a successful `Except` computation applies the
continuation. -/
theorem except_ok_bind {ε α β : Type} (a : α) (f : α → Except ε β) :
    (Except.ok a >>= f) = f a := rfl

/-- Bind on a failed `Except` computation propagates the error. -/
theorem except_error_bind {ε α β : Type} (e : ε) (f : α → Except ε β) :
    (Except.error e >>= f : Except ε β) = .error e := rfl

/-- Appending more lines to a successfully decoded reply continues the
fold from the accumulated record. -/
theorem accountsFold_append (pre post : List Str) (acc acc' : Accounts)
    (h : accountsFold pre acc = .ok acc') :
    accountsFold (pre ++ post) acc = accountsFold post acc' := by
  induction pre generalizing acc with
  | nil =>
    simp only [accountsFold] at h
    cases h
    simp
  | cons l ls ih =>
    simp only [List.cons_append, accountsFold] at h ⊢
    cases hstep : accountsStep acc l with
    | ok a =>
      rw [hstep] at h
      exact ih a h
    | error e =>
      rw [hstep] at h
      exact absurd h (by simp)

/-- Looking up the key just inserted returns the inserted value. -/
theorem alookup_ainsert_self {β : Type} (m : List (Str × β)) (k : Str) (v : β) :
    alookup (ainsert m k v) k = some v := by
  induction m with
  | nil => simp [ainsert, alookup]
  | cons p rest ih =>
    obtain ⟨k', v'⟩ := p
    by_cases h : k' = k <;> simp [ainsert, alookup, h, ih]

/-- C7: in an accounts reply, an `ADDUSER` line whose `LOGIN` was
already introduced by an earlier `ADDUSER` makes the decoder return
`TmcdDuplicateUser`, and a `PUBKEY` line whose `LOGIN` was not
introduced by any earlier `ADDUSER` makes it return `TmcdNoSuchUser`. -/
theorem c7_duplicate_and_unknown_user (pre rest : List Str) (acc : Accounts)
    (rootUser : User)
    (hpre : accountsFold pre Accounts.new = .ok acc) :
    (∀ line r login uid gid serial rootv home shell u0,
      Response.parse (trimStr line) = .ok r →
      r.responseType = some rtADDUSER →
      r.getParsedString kLOGIN = .ok login →
      r.getParsedU16 kUID = .ok uid →
      r.getParsedU16 kGID = .ok gid →
      r.getParsedString kSERIAL = .ok serial →
      r.get kROOT = .ok rootv →
      r.getParsedString kHOMEDIR = .ok home →
      r.getParsedString kSHELL = .ok shell →
      alookup acc.users login = some u0 →
      tmccAccounts (pre ++ line :: rest) rootUser =
        .error (.tmcdDuplicateUser login)) ∧
    (∀ line r login key,
      Response.parse (trimStr line) = .ok r →
      r.responseType = some rtPUBKEY →
      r.getParsedString kLOGIN = .ok login →
      r.getParsedString kKEY = .ok key →
      alookup acc.users login = none →
      tmccAccounts (pre ++ line :: rest) rootUser =
        .error (.tmcdNoSuchUser login)) := by
  constructor
  · intro line r login uid gid serial rootv home shell u0
      hp hrt hL hU hG hS hR hH hSh hdup
    have hstep : accountsStep acc line = .error (.tmcdDuplicateUser login) := by
      unfold accountsStep
      rw [hp]
      rw [except_ok_bind]
      simp only [hrt, except_ok_bind, hL, hU, hG, hS, hR, hH, hSh]
      simp +decide [hdup]
    unfold tmccAccounts
    rw [accountsFold_append pre (line :: rest) Accounts.new acc hpre]
    simp only [accountsFold]
    rw [hstep]
    rfl
  · intro line r login key hp hrt hL hK hmiss
    have hstep : accountsStep acc line = .error (.tmcdNoSuchUser login) := by
      unfold accountsStep
      rw [hp]
      rw [except_ok_bind]
      simp only [hrt, except_ok_bind, hL, hK]
      simp +decide [hmiss]
    unfold tmccAccounts
    rw [accountsFold_append pre (line :: rest) Accounts.new acc hpre]
    simp only [accountsFold]
    rw [hstep]
    rfl

/-- A concrete `ADDUSER` reply line. -/
def c7AdduserLine : Str :=
  ("ADDUSER LOGIN=a UID=1 GID=2 SERIAL=3 ROOT=1 HOMEDIR=/h SHELL=s").data

/-- A concrete `PUBKEY` reply line for a login never added. -/
def c7PubkeyLine : Str := ("PUBKEY LOGIN=b KEY=k").data

/-- The parse of `c7AdduserLine`. -/
def c7Resp : Response :=
  ⟨some rtADDUSER,
    [(kLOGIN, ("a").data), (kUID, ("1").data), (kGID, ("2").data),
     (kSERIAL, ("3").data), (kROOT, ("1").data), (kHOMEDIR, ("/h").data),
     (kSHELL, ("s").data)]⟩

/-- The parse of `c7PubkeyLine`. -/
def c7PubResp : Response :=
  ⟨some rtPUBKEY, [(kLOGIN, ("b").data), (kKEY, ("k").data)]⟩

/-- The user record decoded from `c7AdduserLine`. -/
def c7User : User :=
  { login := ("a").data
    uid := 1
    gid := 2
    root := true
    home := ("/h").data
    sshKeys := []
    shell := ("s").data
    serial := ("3").data }

/-- The accounts record after decoding `c7AdduserLine`. -/
def c7Acc : Accounts := ⟨[((("a").data), c7User)], []⟩

/-- Witness for `c7_duplicate_and_unknown_user` at concrete replies. -/
theorem c7_duplicate_and_unknown_user_witness :
    accountsFold [c7AdduserLine] Accounts.new = .ok c7Acc ∧
    tmccAccounts [c7AdduserLine, c7AdduserLine] sampleUser =
      .error (.tmcdDuplicateUser (("a").data)) ∧
    tmccAccounts [c7AdduserLine, c7PubkeyLine] sampleUser =
      .error (.tmcdNoSuchUser (("b").data)) :=
  ⟨by decide,
    (c7_duplicate_and_unknown_user [c7AdduserLine] [] c7Acc sampleUser
        (by decide)).1
      c7AdduserLine c7Resp (("a").data) 1 2 (("3").data) (("1").data)
      (("/h").data) (("s").data) c7User (by decide) (by decide) (by decide)
      (by decide) (by decide) (by decide) (by decide) (by decide) (by decide)
      (by decide),
    (c7_duplicate_and_unknown_user [c7AdduserLine] [] c7Acc sampleUser
        (by decide)).2
      c7PubkeyLine c7PubResp (("b").data) (("k").data) (by decide) (by decide)
      (by decide) (by decide) (by decide)⟩

/-- C10: the synthesized root user has the admin flag false, replaces
any controller-supplied record for login `root` in the decoded accounts
map, and applying it to a system where root already exists (with UID 0)
invokes the external update tool for `root` with supplementary groups
from which the admin group has been removed. -/
theorem c10_root_synthesis_admin_removed (locLines accLines : List Str)
    (rootHome : Str) (acc : Accounts) (sys : SystemConfiguration)
    (st : SystemState) (sysRoot : SysUser)
    (hacc : tmccAccounts accLines (rootAccount locLines rootHome) = .ok acc)
    (hfound : alookup st.usersByName loginRoot = some sysRoot)
    (huid : sysRoot.uid = 0)
    (hok : st.usermodOk = true) :
    (rootAccount locLines rootHome).root = false ∧
    alookup acc.users loginRoot = some (rootAccount locLines rootHome) ∧
    (rootAccount locLines rootHome).apply sys st =
      (.ok (),
        Action.usermod (resolveShell sys (rootAccount locLines rootHome).shell)
          (joinComma (sysRoot.groups.filter (fun gn => gn ≠ sys.adminGroup)))
          loginRoot
        :: applyAuthorizedKeysActions (rootAccount locLines rootHome)) := by
  have hroot : (rootAccount locLines rootHome).root = false := rfl
  have huid2 : (rootAccount locLines rootHome).uid = 0 := rfl
  have hlogin : (rootAccount locLines rootHome).login = loginRoot := rfl
  refine ⟨hroot, ?_, ?_⟩
  · unfold tmccAccounts at hacc
    cases hfold : accountsFold accLines Accounts.new with
    | error e =>
      rw [hfold, except_error_bind] at hacc
      exact absurd hacc (by simp)
    | ok acc0 =>
      rw [hfold, except_ok_bind] at hacc
      injection hacc with h
      rw [← h]
      exact alookup_ainsert_self acc0.users loginRoot
        (rootAccount locLines rootHome)
  · have hf2 : alookup st.usersByName (rootAccount locLines rootHome).login =
        some sysRoot := by rw [hlogin]; exact hfound
    unfold User.apply
    rw [hf2]
    simp [hroot, huid2, huid, hok, hlogin]

/-- Localization reply lines for the C10 witness. -/
def c10LocLines : List Str := [("ROOTPUBKEY=k1").data]

/-- Root home for the C10 witness. -/
def c10RootHome : Str := ("/root").data

/-- Accounts reply containing a controller-supplied record for login
`root` (to be replaced by the synthesized one). -/
def c10AccLines : List Str :=
  [("ADDUSER LOGIN=root UID=7 GID=7 SERIAL=9 ROOT=1 HOMEDIR=/x SHELL=s").data]

/-- The decoded accounts record of the C10 witness: the synthesized
root replaced the controller-supplied record. -/
def c10Acc : Accounts :=
  ⟨[(loginRoot, rootAccount c10LocLines c10RootHome)], []⟩

/-- The system root entry for the C10 witness. -/
def c10SysRoot : SysUser := ⟨0, [(("sudo").data), ("users").data]⟩

/-- System state for the C10 witness. -/
def c10St : SystemState := ⟨[(loginRoot, c10SysRoot)], true, true⟩

/-- Witness for `c10_root_synthesis_admin_removed` at concrete
inputs. -/
theorem c10_root_synthesis_admin_removed_witness :
    tmccAccounts c10AccLines (rootAccount c10LocLines c10RootHome) =
      .ok c10Acc ∧
    alookup c10St.usersByName loginRoot = some c10SysRoot ∧
    c10SysRoot.uid = 0 ∧
    c10St.usermodOk = true ∧
    ((rootAccount c10LocLines c10RootHome).root = false ∧
     alookup c10Acc.users loginRoot =
       some (rootAccount c10LocLines c10RootHome) ∧
     (rootAccount c10LocLines c10RootHome).apply sampleSys c10St =
       (.ok (),
         Action.usermod
           (resolveShell sampleSys (rootAccount c10LocLines c10RootHome).shell)
           (joinComma
             (c10SysRoot.groups.filter (fun gn => gn ≠ sampleSys.adminGroup)))
           loginRoot
         :: applyAuthorizedKeysActions (rootAccount c10LocLines c10RootHome))) :=
  ⟨by decide, by decide, by decide, by decide,
    c10_root_synthesis_admin_removed c10LocLines c10AccLines c10RootHome c10Acc
      sampleSys c10St c10SysRoot (by decide) (by decide) (by decide)
      (by decide)⟩

/-- Whatever the fuel, the parse loop returns either a parsed record or
a `TmcdBadLine` error whose position is bounded by the line length. -/
theorem parseAux_total (line : Str) :
    ∀ fuel rest first rt kv,
      (∃ r, parseAux line fuel rest first rt kv = .ok r) ∨
      (∃ p, parseAux line fuel rest first rt kv = .error (.tmcdBadLine p) ∧
        p ≤ line.length) := by
  intro fuel
  induction fuel with
  | zero =>
    intro rest first rt kv
    exact Or.inr ⟨line.length - rest.length, rfl, Nat.sub_le _ _⟩
  | succ n ih =>
    intro rest first rt kv
    cases hmt : matchToken rest with
    | none =>
      exact Or.inr ⟨line.length - rest.length, by simp [parseAux, hmt],
        Nat.sub_le _ _⟩
    | some tok =>
      obtain ⟨key, val?, rest?⟩ := tok
      cases val? with
      | some vq =>
        obtain ⟨v, q⟩ := vq
        cases rest? with
        | some r =>
          simpa [parseAux, hmt] using ih r false rt (ainsert kv key v)
        | none =>
          exact Or.inl ⟨⟨rt, ainsert kv key v⟩, by simp [parseAux, hmt]⟩
      | none =>
        cases first with
        | false =>
          exact Or.inr ⟨line.length - rest.length, by simp [parseAux, hmt],
            Nat.sub_le _ _⟩
        | true =>
          cases rest? with
          | some r =>
            simpa [parseAux, hmt] using ih r false (some key) kv
          | none =>
            exact Or.inl ⟨⟨some key, kv⟩, by simp [parseAux, hmt]⟩

/-- C8: `Response::parse` is total: every input either parses or
yields `TmcdBadLine` with a reported position no greater than the
length of the line. -/
theorem c8_parse_total_badline_bounded (line : Str) :
    (∃ r, Response.parse line = .ok r) ∨
    (∃ p, Response.parse line = .error (.tmcdBadLine p) ∧ p ≤ line.length) :=
  parseAux_total line (line.length + 1) line true none []

theorem matchQuoted_eq (u qv after : Str)
    (h : matchQuoted u = some (qv, after)) :
    u = '"' :: (qv ++ '"' :: after) ∧ '"' ∉ qv := by
  unfold matchQuoted at h
  split at h
  · rename_i v
    split at h
    · rename_i after0 hd
      simp only [Option.some.injEq, Prod.mk.injEq] at h
      obtain ⟨h2, h3⟩ := h
      subst h2 h3
      constructor
      · have hv := List.takeWhile_append_dropWhile (fun c => c ≠ '"') v
        rw [hd] at hv
        exact congrArg (fun l => '"' :: l) hv.symm
      · intro hm
        have := List.mem_takeWhile_imp hm
        simp at this
    · cases h
  · cases h

theorem matchUnquoted_eq (u val after : Str)
    (h : matchUnquoted u = some (val, after)) :
    u = val ++ after ∧ val ≠ [] ∧ ' ' ∉ val := by
  unfold matchUnquoted at h
  split at h
  · cases h
  · rename_i c cs ht
    simp only [Option.some.injEq, Prod.mk.injEq] at h
    obtain ⟨h2, h3⟩ := h
    have hv := List.takeWhile_append_dropWhile (fun c => c ≠ ' ') u
    rw [ht, h2, h3] at hv
    refine ⟨hv.symm, ?_, ?_⟩
    · rw [← h2]
      simp
    · intro hm
      rw [← h2, ← ht] at hm
      have := List.mem_takeWhile_imp hm
      simp at this

theorem matchTail_eq (w : Str) (rest? : Option Str)
    (h : matchTail w = some rest?) :
    (rest? = none ∧ w = []) ∨ (∃ r, rest? = some r ∧ w = ' ' :: r) := by
  unfold matchTail at h
  split at h
  · simp only [Option.some.injEq] at h
    exact Or.inl ⟨h.symm, rfl⟩
  · rename_i r
    split at h
    · simp only [Option.some.injEq] at h
      exact Or.inr ⟨r, h.symm, rfl⟩
    · cases h
  · cases h

theorem matchEqUnquoted_eq (u v : Str) (q : Bool) (rest? : Option Str)
    (h : matchEqUnquoted u = some ((v, q), rest?)) :
    q = false ∧ ∃ after, u = v ++ after ∧ ' ' ∉ v ∧ v ≠ [] ∧
      matchTail after = some rest? := by
  unfold matchEqUnquoted at h
  split at h
  · rename_i v0 after0 hu
    split at h
    · rename_i rp htail
      simp only [Option.some.injEq, Prod.mk.injEq] at h
      obtain ⟨⟨hv, hq⟩, hrp⟩ := h
      obtain ⟨hu2, hne, hns⟩ := matchUnquoted_eq u v0 after0 hu
      refine ⟨hq.symm, after0, ?_, ?_, ?_, ?_⟩
      · rw [← hv]
        exact hu2
      · rw [← hv]
        exact hns
      · rw [← hv]
        exact hne
      · rw [htail, hrp]
    · cases h
  · cases h

theorem matchEq_eq (t v : Str) (q : Bool) (rest? : Option Str)
    (h : matchEq t = some ((v, q), rest?)) :
    ∃ after, matchTail after = some rest? ∧
      ((q = true ∧ t = '=' :: '"' :: (v ++ '"' :: after) ∧ '"' ∉ v) ∨
       (q = false ∧ t = '=' :: (v ++ after) ∧ ' ' ∉ v ∧ v ≠ [])) := by
  unfold matchEq at h
  split at h
  · rename_i u
    split at h
    · rename_i qv after0 hq
      split at h
      · rename_i rp htail
        simp only [Option.some.injEq, Prod.mk.injEq] at h
        obtain ⟨⟨hv, hqt⟩, hrp⟩ := h
        obtain ⟨hu2, hnq⟩ := matchQuoted_eq u qv after0 hq
        refine ⟨after0, by rw [htail, hrp], Or.inl ⟨hqt.symm, ?_, ?_⟩⟩
        · rw [hu2, ← hv]
        · rw [← hv]
          exact hnq
      · obtain ⟨hqf, after, hu2, hns, hne, htail⟩ :=
          matchEqUnquoted_eq u v q rest? h
        exact ⟨after, htail, Or.inr ⟨hqf, by rw [hu2], hns, hne⟩⟩
    · obtain ⟨hqf, after, hu2, hns, hne, htail⟩ :=
        matchEqUnquoted_eq u v q rest? h
      exact ⟨after, htail, Or.inr ⟨hqf, by rw [hu2], hns, hne⟩⟩
  · cases h

theorem matchToken_some_val (s key v : Str) (q : Bool) (rest? : Option Str)
    (h : matchToken s = some (key, some (v, q), rest?)) :
    ∃ after, matchTail after = some rest? ∧
      ((q = true ∧ s = key ++ '=' :: '"' :: (v ++ '"' :: after) ∧ '"' ∉ v) ∨
       (q = false ∧ s = key ++ '=' :: (v ++ after) ∧ ' ' ∉ v ∧ v ≠ [])) := by
  unfold matchToken at h
  split at h
  · cases h
  · rename_i c cs ht
    split at h
    · rename_i vq rp hme
      obtain ⟨v1, q1⟩ := vq
      simp only [Option.some.injEq, Prod.mk.injEq] at h
      obtain ⟨hkey, ⟨hv1, hq1⟩, hrp⟩ := h
      obtain ⟨after, htail0, hshape⟩ :=
        matchEq_eq (s.dropWhile isUpperAZ) v1 q1 rp hme
      have hs := List.takeWhile_append_dropWhile isUpperAZ s
      rw [ht, hkey] at hs
      refine ⟨after, by rw [htail0, hrp], ?_⟩
      rcases hshape with ⟨hqt, hsq, hnq⟩ | ⟨hqf, hsu, hns, hne⟩
      · refine Or.inl ⟨by rw [← hq1, hqt], ?_, ?_⟩
        · rw [← hs, hsq, hv1]
        · rw [← hv1]
          exact hnq
      · refine Or.inr ⟨by rw [← hq1, hqf], ?_, ?_, ?_⟩
        · rw [← hs, hsu, hv1]
        · rw [← hv1]
          exact hns
        · rw [← hv1]
          exact hne
    · split at h
      · simp only [Option.some.injEq, Prod.mk.injEq] at h
        obtain ⟨_, hval, _⟩ := h
        cases hval
      · cases h

theorem matchToken_none_val (s key : Str) (rest? : Option Str)
    (h : matchToken s = some (key, none, rest?)) :
    ∃ after, matchTail after = some rest? ∧ s = key ++ after := by
  unfold matchToken at h
  split at h
  · cases h
  · rename_i c cs ht
    split at h
    · rename_i vq rp hme
      simp only [Option.some.injEq, Prod.mk.injEq] at h
      obtain ⟨_, hval, _⟩ := h
      cases hval
    · split at h
      · rename_i rp htail
        simp only [Option.some.injEq, Prod.mk.injEq] at h
        obtain ⟨hkey, _, hrp⟩ := h
        have hs := List.takeWhile_append_dropWhile isUpperAZ s
        rw [ht, hkey] at hs
        exact ⟨s.dropWhile isUpperAZ, by rw [htail, hrp], hs.symm⟩
      · cases h

theorem alookup_ainsert_cases {β : Type} (m : List (Str × β)) (key k : Str)
    (v w : β) (h : alookup (ainsert m key v) k = some w) :
    (k = key ∧ w = v) ∨ alookup m k = some w := by
  induction m with
  | nil =>
    simp only [ainsert, alookup] at h
    split at h
    · rename_i hk
      simp only [Option.some.injEq] at h
      exact Or.inl ⟨hk.symm, h.symm⟩
    · cases h
  | cons p rest ih =>
    obtain ⟨k0, v0⟩ := p
    by_cases hk0 : k0 = key
    · subst hk0
      simp only [ainsert, if_pos rfl, alookup] at h
      split at h
      · rename_i hkk
        simp only [Option.some.injEq] at h
        exact Or.inl ⟨hkk.symm, h.symm⟩
      · rename_i hkk
        refine Or.inr ?_
        simp only [alookup, if_neg hkk]
        exact h
    · simp only [ainsert, if_neg hk0, alookup] at h
      split at h
      · rename_i hkk
        simp only [Option.some.injEq] at h
        refine Or.inr ?_
        simp only [alookup, if_pos hkk]
        rw [h]
      · rename_i hkk
        rcases ih h with hl | hr
        · exact Or.inl hl
        · refine Or.inr ?_
          simp only [alookup, if_neg hkk]
          exact hr

/-- The value stored for a key occurs verbatim in the line, either as
an unquoted `KEY=value` token (space-free value) or as a quoted
`KEY="value"` token (quote-free value). -/
def tokenInLine (line k v : Str) : Prop :=
  (' ' ∉ v ∧ ∃ s t, line = s ++ (k ++ '=' :: v) ++ t) ∨
  ('"' ∉ v ∧ ∃ s t, line = s ++ (k ++ '=' :: '"' :: (v ++ ['"'])) ++ t)

/-- Invariant of the parse loop: every binding in the final kv map is
a token of the line. -/
theorem parseAux_kv_sound (line : Str) :
    ∀ fuel rest first rt kv r,
      (∃ pre, line = pre ++ rest) →
      (∀ k v, alookup kv k = some v → tokenInLine line k v) →
      parseAux line fuel rest first rt kv = .ok r →
      ∀ k v, alookup r.kv k = some v → tokenInLine line k v := by
  intro fuel
  induction fuel with
  | zero => intro rest first rt kv r _ _ hp; cases hp
  | succ n ih =>
    intro rest first rt kv r hsuf hkv hp
    obtain ⟨pre, hpre⟩ := hsuf
    cases hmt : matchToken rest with
    | none =>
      simp [parseAux, hmt] at hp
    | some tok =>
      obtain ⟨key, val?, rest?⟩ := tok
      cases val? with
      | some vq =>
        obtain ⟨v0, q⟩ := vq
        obtain ⟨after, htail, hshape⟩ :=
          matchToken_some_val rest key v0 q rest? hmt
        have htok : tokenInLine line key v0 := by
          rcases hshape with ⟨_, hsq, hnq⟩ | ⟨_, hsu, hns, _⟩
          · exact Or.inr ⟨hnq, pre, after, by rw [hpre, hsq]; simp⟩
          · exact Or.inl ⟨hns, pre, after, by rw [hpre, hsu]; simp⟩
        have hkv2 : ∀ k v, alookup (ainsert kv key v0) k = some v →
            tokenInLine line k v := by
          intro k v hk
          rcases alookup_ainsert_cases kv key k v0 v hk with ⟨hk1, hk2⟩ | hold
          · subst hk1 hk2
            exact htok
          · exact hkv k v hold
        cases rest? with
        | some r2 =>
          rcases matchTail_eq after (some r2) htail with ⟨hc, _⟩ | ⟨r3, hr3, hafter⟩
          · cases hc
          · obtain rfl : r2 = r3 := Option.some.inj hr3
            subst hafter
            simp only [parseAux, hmt] at hp
            have hsuf2 : ∃ X, rest = X ++ ' ' :: r2 := by
              rcases hshape with ⟨_, hsq, _⟩ | ⟨_, hsu, _, _⟩
              · exact ⟨key ++ '=' :: '"' :: (v0 ++ ['"']), by rw [hsq]; simp⟩
              · exact ⟨key ++ '=' :: v0, by rw [hsu]; simp⟩
            obtain ⟨X, hX⟩ := hsuf2
            refine ih r2 false rt (ainsert kv key v0) r
              ⟨pre ++ X ++ [' '], by rw [hpre, hX]; simp⟩ hkv2 hp
        | none =>
          simp only [parseAux, hmt] at hp
          have hr : r = ⟨rt, ainsert kv key v0⟩ := (Except.ok.inj hp).symm
          subst hr
          exact hkv2
      | none =>
        obtain ⟨after, htail, hs⟩ := matchToken_none_val rest key rest? hmt
        cases first with
        | false =>
          simp only [parseAux, hmt] at hp
          simp at hp
        | true =>
          cases rest? with
          | some r2 =>
            rcases matchTail_eq after (some r2) htail with ⟨hc, _⟩ | ⟨r3, hr3, hafter⟩
            · cases hc
            · obtain rfl : r2 = r3 := Option.some.inj hr3
              subst hafter
              simp only [parseAux, hmt, if_pos] at hp
              exact ih r2 false (some key) kv r
                ⟨pre ++ key ++ [' '], by rw [hpre, hs]; simp⟩ hkv hp
          | none =>
            simp only [parseAux, hmt, if_pos] at hp
            have hr : r = ⟨some key, kv⟩ := (Except.ok.inj hp).symm
            subst hr
            exact hkv

/-- A token of a response line: key, raw captured value, and whether
the value was quoted in the line. -/
abbrev Tok := Str × Str × Bool

/-- Render one token the way it appeared in the line. -/
def renderTok : Tok → Str
  | (k, v, true) => k ++ '=' :: '"' :: (v ++ ['"'])
  | (k, v, false) => k ++ '=' :: v

/-- Render a run of tokens separated by single spaces. -/
def joinToks : List Tok → Str
  | [] => []
  | t :: ts =>
    match ts with
    | [] => renderTok t
    | _ :: _ => renderTok t ++ ' ' :: joinToks ts

/-- Render a whole response line: the optional leading type token,
then the key/value tokens separated by single spaces. -/
def renderLine : Option Str → List Tok → Str
  | some ty, [] => ty
  | some ty, t :: ts => ty ++ ' ' :: joinToks (t :: ts)
  | none, toks => joinToks toks

/-- The key/value bindings carried by a token list, in line order. -/
def kvOf (toks : List Tok) : List (Str × Str) :=
  toks.map (fun t => (t.1, t.2.1))

/-- Well-formedness of a token: a quoted value contains no double
quote; an unquoted value is non-empty and contains no space. -/
def tokWellFormed : Tok → Prop
  | (_, v, true) => '"' ∉ v
  | (_, v, false) => ' ' ∉ v ∧ v ≠ []

/-- `alookup` after a replacing insert: the inserted key maps to the
new value, every other key is unchanged. -/
theorem alookup_ainsert {β : Type} (m : List (Str × β)) (key k : Str) (v : β) :
    alookup (ainsert m key v) k = if key = k then some v else alookup m k := by
  induction m with
  | nil => simp [ainsert, alookup]
  | cons p rest ih =>
    obtain ⟨k0, v0⟩ := p
    by_cases hk0 : k0 = key
    · subst hk0
      by_cases hk : k0 = k
      · subst hk
        simp [ainsert, alookup]
      · simp [ainsert, alookup, hk]
    · by_cases hk : k0 = k
      · subst hk
        have hkey : ¬ key = k0 := fun h => hk0 h.symm
        simp [ainsert, alookup, hk0, hkey]
      · simp [ainsert, alookup, hk0, hk, ih]

/-- `alookup` over an append searches the first list, then the
second. -/
theorem alookup_append {β : Type} (l1 l2 : List (Str × β)) (k : Str) :
    alookup (l1 ++ l2) k =
      match alookup l1 k with
      | some v => some v
      | none => alookup l2 k := by
  induction l1 with
  | nil => simp [alookup]
  | cons p rest ih =>
    obtain ⟨k0, v0⟩ := p
    by_cases hk : k0 = k
    · simp [alookup, hk]
    · simp [alookup, hk, ih]

/-- Folding replacing inserts realizes last-write-wins: the final map
answers with the last binding for the key, falling back to the initial
map. -/
theorem alookup_foldl_ainsert {β : Type} (toks : List (Str × β))
    (kv : List (Str × β)) (k : Str) :
    alookup (toks.foldl (fun m p => ainsert m p.1 p.2) kv) k =
      match alookup toks.reverse k with
      | some v => some v
      | none => alookup kv k := by
  induction toks generalizing kv with
  | nil => simp [alookup]
  | cons p rest ih =>
    obtain ⟨pk, pv⟩ := p
    rw [List.foldl_cons, ih, List.reverse_cons, alookup_append]
    cases hcase : alookup rest.reverse k with
    | some v => rfl
    | none =>
      rw [alookup_ainsert]
      by_cases hp : pk = k
      · simp [alookup, hp]
      · simp [alookup, hp]

/-- Completeness of the parse loop after the first token: a successful
parse decomposes the remainder into a non-empty run of key/value
tokens, leaves the response type as given, and folds exactly those
bindings into the kv map. -/
theorem parseAux_complete_rest (line : Str) :
    ∀ fuel rest rt kv r,
      parseAux line fuel rest false rt kv = .ok r →
      ∃ toks, toks ≠ [] ∧ rest = joinToks toks ∧
        r.responseType = rt ∧
        r.kv = (kvOf toks).foldl (fun m p => ainsert m p.1 p.2) kv ∧
        ∀ t ∈ toks, tokWellFormed t := by
  intro fuel
  induction fuel with
  | zero => intro rest rt kv r hp; cases hp
  | succ n ih =>
    intro rest rt kv r hp
    cases hmt : matchToken rest with
    | none => simp [parseAux, hmt] at hp
    | some tok =>
      obtain ⟨key, val?, rest?⟩ := tok
      cases val? with
      | some vq =>
        obtain ⟨v0, q⟩ := vq
        obtain ⟨after, htail, hshape⟩ :=
          matchToken_some_val rest key v0 q rest? hmt
        have hrw : rest = renderTok (key, v0, q) ++ after ∧
            tokWellFormed (key, v0, q) := by
          rcases hshape with ⟨hqt, hsq, hnq⟩ | ⟨hqf, hsu, hns, hne⟩
          · subst hqt
            exact ⟨by rw [hsq]; simp [renderTok], hnq⟩
          · subst hqf
            exact ⟨by rw [hsu]; simp [renderTok], hns, hne⟩
        obtain ⟨hrend, hwf⟩ := hrw
        cases rest? with
        | some r2 =>
          rcases matchTail_eq after (some r2) htail with ⟨hc, _⟩ |
            ⟨r3, hr3, hafter⟩
          · cases hc
          · obtain rfl : r2 = r3 := Option.some.inj hr3
            subst hafter
            simp only [parseAux, hmt] at hp
            obtain ⟨toks2, hne2, hr2, hrt, hkv, hwf2⟩ :=
              ih r2 rt (ainsert kv key v0) r hp
            refine ⟨(key, v0, q) :: toks2, by simp, ?_, hrt, ?_, ?_⟩
            · cases toks2 with
              | nil => exact absurd rfl hne2
              | cons t2 ts2 =>
                rw [hrend, hr2]
                simp [joinToks]
            · rw [hkv]
              simp [kvOf]
            · intro t ht
              rcases List.mem_cons.mp ht with rfl | ht2
              · exact hwf
              · exact hwf2 t ht2
        | none =>
          rcases matchTail_eq after none htail with ⟨_, hafter⟩ |
            ⟨r3, hr3, _⟩
          · subst hafter
            simp only [parseAux, hmt] at hp
            have hr : r = ⟨rt, ainsert kv key v0⟩ := (Except.ok.inj hp).symm
            subst hr
            refine ⟨[(key, v0, q)], by simp, ?_, rfl, ?_, ?_⟩
            · rw [hrend]
              simp [joinToks]
            · simp [kvOf]
            · intro t ht
              rcases List.mem_singleton.mp ht with rfl
              exact hwf
          · cases hr3
      | none =>
        simp [parseAux, hmt] at hp

/-- Completeness of a full parse: a successful parse decomposes the
whole input into the rendering of the recorded response type followed
by the extracted tokens. -/
theorem parseAux_complete_start (line : Str) :
    ∀ fuel rest kv r,
      parseAux line fuel rest true none kv = .ok r →
      ∃ toks, rest = renderLine r.responseType toks ∧
        r.kv = (kvOf toks).foldl (fun m p => ainsert m p.1 p.2) kv ∧
        ∀ t ∈ toks, tokWellFormed t := by
  intro fuel rest kv r hp
  cases fuel with
  | zero => cases hp
  | succ n =>
    cases hmt : matchToken rest with
    | none => simp [parseAux, hmt] at hp
    | some tok =>
      obtain ⟨key, val?, rest?⟩ := tok
      cases val? with
      | some vq =>
        obtain ⟨v0, q⟩ := vq
        obtain ⟨after, htail, hshape⟩ :=
          matchToken_some_val rest key v0 q rest? hmt
        have hrw : rest = renderTok (key, v0, q) ++ after ∧
            tokWellFormed (key, v0, q) := by
          rcases hshape with ⟨hqt, hsq, hnq⟩ | ⟨hqf, hsu, hns, hne⟩
          · subst hqt
            exact ⟨by rw [hsq]; simp [renderTok], hnq⟩
          · subst hqf
            exact ⟨by rw [hsu]; simp [renderTok], hns, hne⟩
        obtain ⟨hrend, hwf⟩ := hrw
        cases rest? with
        | some r2 =>
          rcases matchTail_eq after (some r2) htail with ⟨hc, _⟩ |
            ⟨r3, hr3, hafter⟩
          · cases hc
          · obtain rfl : r2 = r3 := Option.some.inj hr3
            subst hafter
            simp only [parseAux, hmt] at hp
            obtain ⟨toks2, hne2, hr2, hrt, hkv, hwf2⟩ :=
              parseAux_complete_rest line n r2 none (ainsert kv key v0) r hp
            refine ⟨(key, v0, q) :: toks2, ?_, ?_, ?_⟩
            · rw [hrt]
              cases toks2 with
              | nil => exact absurd rfl hne2
              | cons t2 ts2 =>
                rw [hrend, hr2]
                simp [renderLine, joinToks]
            · rw [hkv]
              simp [kvOf]
            · intro t ht
              rcases List.mem_cons.mp ht with rfl | ht2
              · exact hwf
              · exact hwf2 t ht2
        | none =>
          rcases matchTail_eq after none htail with ⟨_, hafter⟩ |
            ⟨r3, hr3, _⟩
          · subst hafter
            simp only [parseAux, hmt] at hp
            have hr : r = ⟨none, ainsert kv key v0⟩ := (Except.ok.inj hp).symm
            subst hr
            refine ⟨[(key, v0, q)], ?_, by simp [kvOf], ?_⟩
            · rw [hrend]
              simp [renderLine, joinToks]
            · intro t ht
              rcases List.mem_singleton.mp ht with rfl
              exact hwf
          · cases hr3
      | none =>
        obtain ⟨after, htail, hs⟩ := matchToken_none_val rest key rest? hmt
        cases rest? with
        | some r2 =>
          rcases matchTail_eq after (some r2) htail with ⟨hc, _⟩ |
            ⟨r3, hr3, hafter⟩
          · cases hc
          · obtain rfl : r2 = r3 := Option.some.inj hr3
            subst hafter
            simp only [parseAux, hmt, if_pos] at hp
            obtain ⟨toks2, hne2, hr2, hrt, hkv, hwf2⟩ :=
              parseAux_complete_rest line n r2 (some key) kv r hp
            refine ⟨toks2, ?_, hkv, hwf2⟩
            rw [hrt]
            cases toks2 with
            | nil => exact absurd rfl hne2
            | cons t2 ts2 =>
              rw [hs, hr2]
              simp [renderLine]
        | none =>
          rcases matchTail_eq after none htail with ⟨_, hafter⟩ |
            ⟨r3, hr3, _⟩
          · subst hafter
            simp only [parseAux, hmt, if_pos] at hp
            have hr : r = ⟨some key, kv⟩ := (Except.ok.inj hp).symm
            subst hr
            refine ⟨[], ?_, by simp [kvOf], by simp⟩
            rw [hs]
            simp [renderLine]
          · cases hr3

/-- C9: every line that parses decomposes exactly into the recorded
response type followed by a run of `KEY=value` / `KEY="value"` tokens
separated by single spaces; `get` succeeds for precisely the keys seen
in the line and returns the raw string that appeared there (the last
occurrence when a key repeats — last-write-wins); unquoted values are
non-empty and contain no space, quoted values contain no double quote,
and every returned value occurs verbatim in the line. -/
theorem c9_parse_preserves_raw_values (line : Str) (r : Response)
    (hp : Response.parse line = .ok r) :
    ∃ toks, line = renderLine r.responseType toks ∧
      (∀ k, alookup r.kv k = alookup (kvOf toks).reverse k) ∧
      (∀ t ∈ toks, tokWellFormed t) ∧
      (∀ k v, alookup r.kv k = some v → tokenInLine line k v) := by
  obtain ⟨toks, hline, hkv, hwf⟩ :=
    parseAux_complete_start line (line.length + 1) line [] r hp
  refine ⟨toks, hline, ?_, hwf, ?_⟩
  · intro k
    rw [hkv, alookup_foldl_ainsert]
    cases hcase : alookup (kvOf toks).reverse k with
    | some v => rfl
    | none => simp [alookup]
  · intro k v hkvk
    exact parseAux_kv_sound line (line.length + 1) line true none [] r
      ⟨[], rfl⟩ (fun _ _ h => by cases h) hp k v hkvk

/-- A concrete line with an unquoted and a quoted value. -/
def c9Line : Str := ("ADDUSER LOGIN=alice NAME=\"Alice A\"").data

/-- The parse of `c9Line`. -/
def c9Resp : Response :=
  ⟨some rtADDUSER, [(kLOGIN, ("alice").data), (kNAME, ("Alice A").data)]⟩

/-- Witness for `c9_parse_preserves_raw_values` at a concrete line. -/
theorem c9_parse_preserves_raw_values_witness :
    Response.parse c9Line = .ok c9Resp ∧
    (∃ toks, c9Line = renderLine c9Resp.responseType toks ∧
      (∀ k, alookup c9Resp.kv k = alookup (kvOf toks).reverse k) ∧
      (∀ t ∈ toks, tokWellFormed t) ∧
      (∀ k v, alookup c9Resp.kv k = some v → tokenInLine c9Line k v)) :=
  ⟨by decide, c9_parse_preserves_raw_values c9Line c9Resp (by decide)⟩

end Miniond